import Mathlib

/-!
Verification development for the Parsnip parser generator
(src/lib/parser.ts, src/lib/lexer.ts).

The TypeScript source is shallowly embedded: the lexer and the
recursive-descent parsing engine become fuel-indexed total functions over
explicit token-stream state; JavaScript exceptions become an explicit
`Thrown` error type threaded through every result together with the final
cursor position (a thrown exception leaves the mutable stream wherever it
was).  Fuel only cuts off runs the source would not terminate on (or deep
recursion); all concrete evaluations use ample fuel.
-/

namespace Parsnip

/-! ## Character classes used by the lexer (src/lib/lexer.ts)

The source tests characters with the JavaScript regexes `/\s/`, `/[0-9]/`,
`/[0-9.]/`, `/[a-zA-Z]/`, `/[a-zA-Z0-9]/`.  We model `/\s/` by the ASCII
whitespace characters (the inputs considered contain no exotic Unicode
spaces). -/

def isWsChar (c : Char) : Bool :=
  c = ' ' || c = '\t' || c = '\n' || c = '\x0d' || c = '\x0b' || c = '\x0c'

def isDigitChar (c : Char) : Bool := '0' ≤ c && c ≤ '9'

def isDigitDotChar (c : Char) : Bool := isDigitChar c || c = '.'

def isAlphaChar (c : Char) : Bool :=
  ('a' ≤ c && c ≤ 'z') || ('A' ≤ c && c ≤ 'Z')

def isAlnumChar (c : Char) : Bool := isAlphaChar c || isDigitChar c

/-- `const operators = ["+", "-", "*", "/", ">", "<", "=", "%"]` -/
def operators : List Char := ['+', '-', '*', '/', '>', '<', '=', '%']

/-- `const brackets = ["(", ")", "[", "]", "{", "}"]` -/
def brackets : List Char := ['(', ')', '[', ']', '\x7b', '\x7d']

/-! ## Tokens -/

/-- `Token` from src/lib/types.ts: `type` is one of the literal strings
"keyword" | "number" | "operator" | "bracket" | "comment" | "string" |
"whitespace" | "identifier". -/
structure Token where
  type : String
  value : String
  line : Nat
  column : Nat
  index : Nat
deriving DecidableEq, Repr

/-- The `Error` with `name = "LexerError"` thrown by `lex`. -/
structure LexErr where
  message : String
deriving DecidableEq, Repr

/-- Position bookkeeping shared by every branch of the scanner: a newline
resets the column to 1 and bumps the line, any other character bumps the
column. -/
def foldPos : List Char → Nat × Nat → Nat × Nat
  | [], lc => lc
  | c :: rest, (l, col) =>
    foldPos rest (if c = '\n' then (l + 1, 1) else (l, col + 1))

/-- Message of the unterminated-string `LexerError`:
`Unterminated string literal at line ${line}:${startColumn}` — note the
source interpolates the *current* `line` variable (already advanced past any
newline inside the open string) but the *saved* `startColumn`. -/
def untermMsg (line col : Nat) : String :=
  "Unterminated string literal at line " ++ toString line ++ ":" ++ toString col

/-- One pass of `lex` (src/lib/lexer.ts, the `while (current < input.length)`
loop).  Arguments mirror the mutable locals: `idx` is `current`, then `line`
and `column`.  Returns the raw token list (before the whitespace filter)
together with a flag recording whether the final "skip unknown characters"
branch ever ran — in the source those characters are dropped silently; the
flag changes no token and only instruments that branch.  Fuel: every
iteration consumes at least one character, so `input.length + 1` is always
enough. -/
def lexLoop : Nat → List Char → Nat → Nat → Nat → List String →
    Except LexErr (List Token × Bool)
  | 0, _, _, _, _, _ => .error ⟨"out of fuel"⟩
  | _ + 1, [], _, _, _, _ => .ok ([], false)
  | fuel + 1, c :: cs, idx, line, col, kws =>
      if isWsChar c then
        -- Handle whitespace: the token records the line *after* the run and
        -- the starting column; `index: current` is pushed after the run.
        let lexeme := (c :: cs).takeWhile isWsChar
        let rest := (c :: cs).dropWhile isWsChar
        let lc := foldPos lexeme (line, col)
        (lexLoop fuel rest (idx + lexeme.length) lc.1 lc.2 kws).map fun r =>
          (⟨"whitespace", String.mk lexeme, lc.1, col, idx + lexeme.length⟩ :: r.1, r.2)
      else if c = '/' && cs.head? = some '/' then
        -- Handle comments: everything up to (excluding) the next newline.
        let lexeme := (c :: cs).takeWhile (· ≠ '\n')
        let rest := (c :: cs).dropWhile (· ≠ '\n')
        (lexLoop fuel rest (idx + lexeme.length) line (col + lexeme.length) kws).map fun r =>
          (⟨"comment", String.mk lexeme, line, col, idx + lexeme.length⟩ :: r.1, r.2)
      else if isDigitChar c ||
          ((c = '+' || c = '-') && (match cs.head? with
            | some d => isDigitChar d
            | none => false)) then
        -- Handle numbers (including signed numbers).
        let lexeme :=
          if c = '+' || c = '-' then c :: cs.takeWhile isDigitDotChar
          else (c :: cs).takeWhile isDigitDotChar
        let rest :=
          if c = '+' || c = '-' then cs.dropWhile isDigitDotChar
          else (c :: cs).dropWhile isDigitDotChar
        (lexLoop fuel rest (idx + lexeme.length) line (col + lexeme.length) kws).map fun r =>
          (⟨"number", String.mk lexeme, line, col, idx + lexeme.length⟩ :: r.1, r.2)
      else if c = '"' then
        -- Handle strings: opening quote consumed (column + 1), contents until
        -- the next quote; reaching end of input raises the LexerError.
        let contents := cs.takeWhile (· ≠ '"')
        match cs.dropWhile (· ≠ '"') with
        | [] =>
          let lc := foldPos contents (line, col + 1)
          .error ⟨untermMsg lc.1 col⟩
        | _ :: rest =>
          let lc := foldPos contents (line, col + 1)
          let lexeme := '"' :: (contents ++ ['"'])
          (lexLoop fuel rest (idx + lexeme.length) lc.1 (lc.2 + 1) kws).map fun r =>
            (⟨"string", String.mk lexeme, lc.1, col, idx + lexeme.length⟩ :: r.1, r.2)
      else if operators.contains c then
        -- Handle operators: `index: current` is pushed *before* current++.
        (lexLoop fuel cs (idx + 1) line (col + 1) kws).map fun r =>
          (⟨"operator", String.mk [c], line, col, idx⟩ :: r.1, r.2)
      else if brackets.contains c then
        (lexLoop fuel cs (idx + 1) line (col + 1) kws).map fun r =>
          (⟨"bracket", String.mk [c], line, col, idx⟩ :: r.1, r.2)
      else if isAlphaChar c then
        -- Handle keywords and identifiers.
        let lexeme := (c :: cs).takeWhile isAlnumChar
        let rest := (c :: cs).dropWhile isAlnumChar
        let ty := if kws.contains (String.mk lexeme) then "keyword" else "identifier"
        (lexLoop fuel rest (idx + lexeme.length) line (col + lexeme.length) kws).map fun r =>
          (⟨ty, String.mk lexeme, line, col, idx + lexeme.length⟩ :: r.1, r.2)
      else
        -- Skip unknown characters (silently dropped; the flag records it).
        (lexLoop fuel cs (idx + 1) line (col + 1) kws).map fun r => (r.1, true)

/-- `lex(input, keywords)` up to the whitespace filter: the raw token list in
scan order plus the unknown-character flag. -/
def lexRaw (input : String) (kws : List String) : Except LexErr (List Token × Bool) :=
  lexLoop (input.length + 1) input.data 0 1 1 kws

/-- `lex(input, keywords)`: the token list handed to `createTokenStream`,
i.e. the raw list with whitespace tokens filtered out. -/
def lex (input : String) (kws : List String) : Except LexErr (List Token) :=
  (lexRaw input kws).map fun r => r.1.filter fun t => t.type ≠ "whitespace"

/-! ## The CST and rule data model (src/lib/parser.ts, src/lib/types.ts) -/

/-- A CST value: a node `{type, value, ?line, ?column}`, an array of nodes,
or a scalar string / number returned by a terminal `parse` callback.  A
node's `type` comes from `rule.type` (optional in the source) and its
`value` is the raw inner result, which can itself be `undefined` — both are
therefore `Option`s.  `line`/`column` are present only in debug mode. -/
inductive ASTVal where
  | node (ty : Option String) (val : Option ASTVal) (line col : Option Nat)
  | list (items : List ASTVal)
  | str (s : String)
  | num (n : Int)
deriving Repr

/-- `ASTResult`: a sub-parser's return value; `none` is JavaScript
`undefined` (e.g. a keyword match outside debug mode). -/
abbrev ASTResult := Option ASTVal

/-- JavaScript truthiness of an `ASTResult`, as tested by
`if (parsed) result.push(parsed)`: `undefined`, `""` and `0` are falsy;
every object (nodes and arrays, even empty ones) is truthy. -/
def truthy : ASTResult → Bool
  | none => false
  | some (.str s) => s ≠ ""
  | some (.num n) => n ≠ 0
  | some (.node ..) => true
  | some (.list _) => true

/-- `Rule` (src/lib/types.ts): an open record of optional fields.  `parseFn`
models the `parse` terminal callback (a JS function that returns a value or
throws; we model the thrown value by its message string).  `rep`/`opt`
stand for the source's `repeat`/`optional` fields (those spellings are
keywords in Lean); booleans are the JS truthiness of the fields.  A
`RuleOrKeyword` list entry is either a bare keyword string or a rule, hence
`Sum String Rule`. -/
inductive Rule where
  | mk (ty : Option String) (capture : Bool)
      (parseFn : Option (Token → Except String ASTVal))
      (sequence : Option (List (Sum String Rule)))
      (options : Option (List (Sum String Rule)))
      (rep : Bool) (opt : Bool) (separator : Option String) : Rule

abbrev RuleOrKw := Sum String Rule

def Rule.type : Rule → Option String
  | .mk t _ _ _ _ _ _ _ => t

def Rule.capture : Rule → Bool
  | .mk _ c _ _ _ _ _ _ => c

def Rule.parseFn : Rule → Option (Token → Except String ASTVal)
  | .mk _ _ p _ _ _ _ _ => p

def Rule.sequence : Rule → Option (List RuleOrKw)
  | .mk _ _ _ s _ _ _ _ => s

def Rule.options : Rule → Option (List RuleOrKw)
  | .mk _ _ _ _ o _ _ _ => o

def Rule.rep : Rule → Bool
  | .mk _ _ _ _ _ r _ _ => r

def Rule.opt : Rule → Bool
  | .mk _ _ _ _ _ _ o _ => o

/-- `{ ...rule, capture: false }` -/
def Rule.setCapture : Rule → Bool → Rule
  | .mk t _ p s o r op sep, b => .mk t b p s o r op sep

/-- `{ ...rule, repeat: false }` -/
def Rule.setRep : Rule → Bool → Rule
  | .mk t c p s o _ op sep, b => .mk t c p s o b op sep

/-- `{ ...rule, optional: false }` -/
def Rule.setOpt : Rule → Bool → Rule
  | .mk t c p s o r _ sep, b => .mk t c p s o r b sep

/-- Grammar: mapping from rule name to rule (a JS object; keys unique). -/
abbrev Grammar := List (String × Rule)

def lookupRule (g : Grammar) (name : String) : Option Rule :=
  (g.find? fun p => p.1 = name).map (·.2)

/-- `ParseError` (src/lib/parser.ts): message, offending token, `expected`
descriptor and the `exit` flag (JS `undefined` reads as false). -/
structure ParseError where
  message : String
  token : Option Token := none
  expected : Option String := none
  exit : Bool := false
deriving DecidableEq, Repr

/-- A thrown JavaScript value: a `ParseError`, a plain `Error` (from
`TokenStream.consume`/`seek` or a property access on `undefined`), the
`LexerError`, or `throw undefined` (what `throw furthestError!` does when an
`options` list is empty).  Fuel exhaustion of the embedding is reported as a
`js` error: it can only arise on runs the source would diverge on, or below
the (ample) fuel used by every concrete evaluation. -/
inductive Thrown where
  | perr (e : ParseError)
  | js (message : String)
  | lexe (message : String)
  | undef
deriving DecidableEq, Repr

/-! ## TokenStream (src/lib/lexer.ts, class TokenStreamImpl)

The stream's token array and source text are fixed for a whole parse; the
mutable cursor `position_` is threaded explicitly as a `Nat`.  Every engine
step returns the result (or thrown value) *and* the cursor it left behind,
because a JS exception leaves the mutable stream where it was. -/

/-- The engine's fixed context: the grammar, the debug flag, and the
`TokenStream`'s token array (whitespace already filtered) and source text. -/
structure Ctx where
  grammar : Grammar
  debug : Bool
  tokens : List Token
  text : String

def peekTok (ctx : Ctx) (pos : Nat) : Option Token := ctx.tokens.get? pos

/-- `consume()`: returns the token at the cursor and advances it, or throws
a plain `Error("Unexpected end of input")`. -/
def consumeTok (ctx : Ctx) (pos : Nat) : Except Thrown Token × Nat :=
  match ctx.tokens.get? pos with
  | some t => (.ok t, pos + 1)
  | none => (.error (.js "Unexpected end of input"), pos)

/-- `seek(position)`: restores the cursor, or throws a plain
`Error("Invalid seek position")` (a `Nat` target cannot be negative). -/
def seekTok (ctx : Ctx) (target pos : Nat) : Except Thrown Unit × Nat :=
  if target > ctx.tokens.length then (.error (.js "Invalid seek position"), pos)
  else (.ok (), target)

/-! ## The parsing engine (class Parser) -/

/-- `findKeywords`' recursive walk: collect every bare string occurring in a
`sequence` or `options` list, depth-first.  The source recurses on the rule
structure without bound; the fuel argument (1000 at the top entry) exceeds
the nesting depth of every grammar considered.  The source inserts into a
`Set`, which only deduplicates — the list is consumed by
`keywords.includes`, for which duplicates are irrelevant. -/
def collectKw : Nat → List RuleOrKw → List String
  | 0, _ => []
  | _ + 1, [] => []
  | fuel + 1, .inl s :: rest => s :: collectKw fuel rest
  | fuel + 1, .inr r :: rest =>
    collectKw fuel (r.sequence.getD []) ++ collectKw fuel (r.options.getD []) ++
      collectKw fuel rest

def findKeywords (g : Grammar) : List String :=
  collectKw 1000 (g.map fun p => Sum.inr p.2)

/-- The comment/whitespace skip at the top of `parseRule`:
`while (peek?.type === "comment" || peek?.type === "whitespace") consume()`.
Terminates because the token array is finite; callers pass
`ctx.tokens.length + 1` as fuel, which is always enough. -/
def skipComments : Nat → Ctx → Nat → Nat
  | 0, _, pos => pos
  | fuel + 1, ctx, pos =>
    match peekTok ctx pos with
    | some t =>
      if t.type = "comment" || t.type = "whitespace" then skipComments fuel ctx (pos + 1)
      else pos
    | none => pos

/-- The JS regex test `/^[a-zA-Z0-9]+$/.test(rule)` from `parseKeyword`. -/
def isAlphaNumericStr (s : String) : Bool :=
  !s.data.isEmpty && s.data.all isAlnumChar

def strLower (s : String) : String := String.mk (s.data.map Char.toLower)

/-- `parseKeyword(rule)` (src/lib/parser.ts lines 91-120). -/
def parseKeyword (ctx : Ctx) (rule : String) (pos : Nat) : Except Thrown ASTResult × Nat :=
  match consumeTok ctx pos with
  | (.error e, p) => (.error e, p)
  | (.ok token, p) =>
    if token.type = "keyword" && !isAlphaNumericStr rule then
      (.error (.perr ⟨"Unexpected keyword '" ++ token.value ++ "'", some token, none, false⟩), p)
    else if strLower token.value ≠ strLower rule then
      (.error (.perr ⟨"Expected '" ++ rule ++ "' but got '" ++ token.value ++ "'",
        some token, none, false⟩), p)
    else if !ctx.debug then (.ok none, p)
    else
      (.ok (some (.node (some "KEYWORD") (some (.str token.value))
        (some token.line) (some token.column))), p)

/-- `parsePrimitiveRule(rule)` (lines 122-136): consume a token and run the
rule's `parse` callback on it; a raised value is wrapped as a `ParseError`
attached to the consumed token. -/
def parsePrimitiveRule (ctx : Ctx) (r : Rule) (pos : Nat) : Except Thrown ASTResult × Nat :=
  match r.parseFn with
  | none => (.error (.perr ⟨"Expected a subparser function for literal", none, none, false⟩), pos)
  | some f =>
    match consumeTok ctx pos with
    | (.error e, p) => (.error e, p)
    | (.ok token, p) =>
      match f token with
      | .ok v => (.ok (some v), p)
      | .error msg => (.error (.perr ⟨msg, some token, none, false⟩), p)

/-- The type of the engine's recursive entry point `this.parseRule`, as seen
by the sub-parsers (context already applied). -/
abbrev PR := Option RuleOrKw → String → Option RuleOrKw → Nat → Except Thrown ASTResult × Nat

/-- `if (parsed) result.push(parsed)` -/
def pushTruthy (acc : List ASTVal) (parsed : ASTResult) : List ASTVal :=
  match parsed with
  | some v => if truthy (some v) then acc ++ [v] else acc
  | none => acc

/-- The loop of `parseSequenceRule` (lines 223-228): evaluate each child,
passing the next child as `endToken`, collecting truthy results; then the
singleton-unwrap return (line 233). -/
def seqLoop (pr : PR) (curTy : String) : List RuleOrKw → List ASTVal → Nat →
    Except Thrown ASTResult × Nat
  | [], acc, pos => (.ok (some (match acc with | [x] => x | _ => .list acc)), pos)
  | c :: rest, acc, pos =>
    match pr (some c) curTy rest.head? pos with
    | (.error e, p) => (.error e, p)
    | (.ok parsed, p) => seqLoop pr curTy rest (pushTruthy acc parsed) p

/-- `parseSequenceRule(rule, currentType)` (lines 211-234). -/
def parseSequenceRule (pr : PR) (ctx : Ctx) (r : Rule) (curTy : String) (pos : Nat) :
    Except Thrown ASTResult × Nat :=
  match r.sequence with
  | none => (.error (.perr ⟨"Expected a sequence for rule", peekTok ctx pos, none, false⟩), pos)
  | some children =>
    match peekTok ctx pos with
    | none => (.error (.perr ⟨"Unexpected end of input", none, none, false⟩), pos)
    | some _ => seqLoop pr curTy children [] pos

/-- The `for (const option of theseOptions)` loop of `parseOptionsRule`
(lines 248-294), with the furthest-error bookkeeping.  `savedP` is the
`position` captured before the first alternative.  NOTE the source assigns
`furthestError = e` *before* comparing `e.token.index > furthestError.token.index`,
so that comparison is `e` against itself and the count-reset branch is dead:
the faithful embedding keeps the dead branch. -/
def optionsLoop (pr : PR) (ctx : Ctx) (curTy : String) (endTk : Option RuleOrKw)
    (savedP : Nat) : List RuleOrKw → Option ParseError → Nat → Nat →
    Except Thrown ASTResult × Nat
  | [], furthest, count, pos =>
    if count > 1 then
      match furthest with
      | some fe =>
        (.error (.perr ⟨"Expected " ++ curTy ++ " but got " ++
          (match fe.token with | some t => t.value | none => "undefined"),
          fe.token, none, false⟩), pos)
      | none => (.error (.js "TypeError"), pos)
    else
      match furthest with
      | some fe => (.error (.perr fe), pos)
      | none => (.error .undef, pos)
  | o :: rest, furthest, count, pos =>
    match pr (some o) curTy endTk pos with
    | (.ok v, p) => (.ok v, p)
    | (.error (.perr e), p) =>
      let fc : Option ParseError × Nat :=
        match furthest with
        | none => (some e, 1)
        | some fe =>
          match e.token, fe.token with
          | some et, some ft =>
            if et.index ≥ ft.index then
              (some e, if et.index > et.index then 1 else count + 1)
            else (some fe, count)
          | _, _ => (some fe, count)
      if e.exit then (.error (.perr e), p)
      else
        match seekTok ctx savedP p with
        | (.error se, p2) => (.error se, p2)
        | (.ok _, p2) => optionsLoop pr ctx curTy endTk savedP rest fc.1 fc.2 p2
    | (.error e, p) => (.error e, p)

/-- `parseOptionsRule(rule, currentType, endToken)` (lines 236-295). -/
def parseOptionsRule (pr : PR) (ctx : Ctx) (r : Rule) (curTy : String)
    (endTk : Option RuleOrKw) (pos : Nat) : Except Thrown ASTResult × Nat :=
  match r.options with
  | none => (.error (.perr ⟨"Expected options for rule", none, none, false⟩), pos)
  | some options => optionsLoop pr ctx curTy endTk pos options none 0 pos

/-- JS truthiness of the `endToken` value tested by `if (endToken)` inside
the repeat loop: `undefined` and `""` are falsy, a nonempty string or a Rule
object is truthy. -/
def endTokTruthy : Option RuleOrKw → Bool
  | none => false
  | some (.inl s) => s ≠ ""
  | some (.inr _) => true

/-- The body of one `while (true)` iteration of `parseRepeatingRule` (lines
171-181): evaluate the rule with `repeat` stripped; push a truthy result and
continue; on a `ParseError` set `exit` and rethrow; any other thrown value
is swallowed by the `catch` (its `if` has no else) and the loop continues. -/
def repeatBody (pr : PR) (r : Rule) (curTy : String)
    (endTk : Option RuleOrKw)
    (loop : List ASTVal → Nat → Except Thrown ASTResult × Nat)
    (acc : List ASTVal) (pos : Nat) : Except Thrown ASTResult × Nat :=
  match pr (some (.inr (r.setRep false))) curTy endTk pos with
  | (.ok parsed, p) => loop (pushTruthy acc parsed) p
  | (.error (.perr e), p) => (.error (.perr { e with exit := true }), p)
  | (.error _, p) => loop acc p

/-- The `while (true)` loop of `parseRepeatingRule` (lines 150-184): stop at
end of input; speculatively match `endToken` (restoring the cursor whether
it matches or not — on a match the sentinel is left for the enclosing
sequence); otherwise run one body iteration.  Fuel bounds the number of
iterations (the source can loop forever, e.g. on a repeated `optional` that
matches nothing). -/
def repeatLoop (pr : PR) (ctx : Ctx) (r : Rule) (curTy : String)
    (endTk : Option RuleOrKw) : Nat → List ASTVal → Nat → Except Thrown ASTResult × Nat
  | 0, _, pos => (.error (.js "out of fuel"), pos)
  | fuel + 1, acc, pos =>
    match peekTok ctx pos with
    | none => (.ok (some (.list acc)), pos)
    | some _ =>
      if endTokTruthy endTk then
        match pr endTk curTy endTk pos with
        | (.ok _, p1) =>
          match seekTok ctx pos p1 with
          | (.ok _, p2) => (.ok (some (.list acc)), p2)
          | (.error se, p2) => (.error se, p2)
        | (.error _, p1) =>
          match seekTok ctx pos p1 with
          | (.error se, p2) => (.error se, p2)
          | (.ok _, p2) => repeatBody pr r curTy endTk (repeatLoop pr ctx r curTy endTk fuel) acc p2
      else repeatBody pr r curTy endTk (repeatLoop pr ctx r curTy endTk fuel) acc pos

/-- `parseRepeatingRule(rule, currentType, endToken)` (lines 138-185): the
`endToken` hint must be a bare string (or absent) — a Rule object is
rejected up front, before any evaluation of the repeated rule. -/
def parseRepeatingRule (pr : PR) (ctx : Ctx) (r : Rule) (curTy : String)
    (endTk : Option RuleOrKw) (fuel : Nat) (pos : Nat) : Except Thrown ASTResult × Nat :=
  match endTk with
  | some (.inr _) => (.error (.perr ⟨"Expected a string for endToken", none, none, false⟩), pos)
  | _ => repeatLoop pr ctx r curTy endTk fuel [] pos

/-- `parseOptionalRule(rule, currentType, endToken)` (lines 187-209). -/
def parseOptionalRule (pr : PR) (ctx : Ctx) (r : Rule) (curTy : String)
    (endTk : Option RuleOrKw) (pos : Nat) : Except Thrown ASTResult × Nat :=
  if !r.opt then (.error (.perr ⟨"Expected a optional for rule", none, none, false⟩), pos)
  else
    match pr (some (.inr (r.setOpt false))) curTy endTk pos with
    | (.ok v, p) => (.ok v, p)
    | (.error (.perr _), p) =>
      match seekTok ctx pos p with
      | (.ok _, p2) => (.ok none, p2)
      | (.error se, p2) => (.error se, p2)
    | (.error e, p) => (.error e, p)

/-- `parseRule(rule, currentType, endToken)` (lines 298-344), the single
dispatcher.  `rule?` is `Option RuleOrKw` because JS freely passes
`undefined` here (a missing grammar entry); accessing `.capture` on it then
throws a `TypeError`.  The `fuel` decreases on every recursive call; the
source recursion is unbounded (left-recursive grammars diverge). -/
def parseRule : Nat → Ctx → Option RuleOrKw → String → Option RuleOrKw → Nat →
    Except Thrown ASTResult × Nat
  | 0, _, _, _, _, pos => (.error (.js "out of fuel"), pos)
  | fuel + 1, ctx, rule?, curTy, endTk, pos =>
    if (peekTok ctx pos).isNone then
      (.error (.perr ⟨"Unexpected end of input", none, none, false⟩), pos)
    else
      let pos := skipComments (ctx.tokens.length + 1) ctx pos
      match rule? with
      | none => (.error (.js "TypeError: cannot read properties of undefined"), pos)
      | some (.inl s) => parseKeyword ctx s pos
      | some (.inr r) =>
        if r.capture then
          match peekTok ctx pos with
          | none => (.error (.js "TypeError: cannot destructure undefined"), pos)
          | some t =>
            match parseRule fuel ctx (some (.inr (r.setCapture false))) curTy endTk pos with
            | (.ok parsed, p) =>
              (.ok (some (.node r.type parsed
                (if ctx.debug then some t.line else none)
                (if ctx.debug then some t.column else none))), p)
            | (.error e, p) => (.error e, p)
        else if r.parseFn.isSome then parsePrimitiveRule ctx r pos
        else if r.sequence.isSome then
          parseSequenceRule (parseRule fuel ctx) ctx r curTy pos
        else if r.rep then
          parseRepeatingRule (parseRule fuel ctx) ctx r curTy endTk fuel pos
        else if r.opt then
          parseOptionalRule (parseRule fuel ctx) ctx r curTy endTk pos
        else if r.options.isSome then
          parseOptionsRule (parseRule fuel ctx) ctx r curTy endTk pos
        else
          match r.type with
          | some ty =>
            if ty ≠ "" then
              parseRule fuel ctx ((lookupRule ctx.grammar ty).map Sum.inr) ty endTk pos
            else (.error (.perr ⟨"No matching rule found", none, none, false⟩), pos)
          | none => (.error (.perr ⟨"No matching rule found", none, none, false⟩), pos)

/-! ## Diagnostic formatting and the top-level `parse` (lines 42-68) -/

/-- JS `text.split("\n")` on the character list (`String.splitOn` is not
kernel-reducible, so the split is implemented structurally). -/
def splitLines : List Char → List (List Char)
  | [] => [[]]
  | c :: rest =>
    let r := splitLines rest
    if c = '\n' then [] :: r
    else
      match r with
      | [] => [[c]]
      | l :: ls => (c :: l) :: ls

/-- `getLinesOfCode(start, end)` (src/lib/lexer.ts lines 216-235): format
lines `[start, end]` (1-based, inclusive) with ` N | ` gutters, the line
number right-aligned to the digit count of `end`.  `start` may arrive
negative (`line - 2`), hence `Int`; it is clamped to 1.  The `if (!end)`
default is modelled for `endL = 0` (never exercised by `parse`, which always
passes a line ≥ 1). -/
def getLinesOfCode (text : String) (start : Int) (endL : Nat) : String :=
  let startC : Int := if start < 1 then 1 else start
  let endN : Nat := if endL = 0 then startC.toNat else endL
  let startN : Nat := startC.toNat
  let lines := (splitLines text.data).map String.mk
  let endDigits := if endN = 0 then 0 else (toString endN).length
  let formatted := lines.enum.map fun p =>
    let numStr := toString (p.1 + 1)
    let repeatCount := endDigits - numStr.length
    String.mk (List.replicate repeatCount ' ') ++ numStr ++ " | " ++ p.2
  String.intercalate "\n" ((formatted.drop (startN - 1)).take (endN - (startN - 1)))

/-- JS `String.prototype.indexOf` for a single character: the first index,
or -1 when absent. -/
def indexOfChar (s : String) (c : Char) : Int :=
  match s.data.findIdx? (· = c) with
  | some i => (i : Int)
  | none => -1

/-- The `catch` block of `parse` (src/lib/parser.ts lines 50-67): append
` at line L:C` when the error carries a token, then two newlines, then the
`${lineOfCode}` interpolation — which is the string "undefined" when no
token (or a zero line) made `lineOfCode` undefined — then a newline.  With a
token, `lineOfCode` is the three-line excerpt plus a caret line. -/
def decorate (ctx : Ctx) (e : ParseError) : ParseError :=
  let location :=
    match e.token with
    | some t => " at line " ++ toString t.line ++ ":" ++ toString t.column
    | none => ""
  let lineOfCode : Option String :=
    match e.token with
    | some t =>
      if t.line ≠ 0 then
        let loc := getLinesOfCode ctx.text ((t.line : Int) - 2) t.line
        let column : Int := indexOfChar loc '|' + 2
        some (loc ++ "\n" ++ String.mk (List.replicate (column + t.column - 1).toNat ' ') ++ "^")
      else none
    | none => none
  { e with message := e.message ++ location ++ "\n\n" ++
      (match lineOfCode with | some s => s | none => "undefined") ++ "\n" }

/-- `Parser.parse(program, rule = "SCRIPT")` (lines 42-68): extract the
keywords, lex (a LexerError escapes undecorated — `lex` runs outside the
`try`), evaluate the entry rule from cursor 0, and decorate any escaping
`ParseError` with the source excerpt; non-`ParseError` throws are re-raised
as they are.  `fuel` bounds the recursion depth of the embedding only. -/
def parse (fuel : Nat) (g : Grammar) (debug : Bool) (program : String)
    (ruleName : String := "SCRIPT") : Except Thrown ASTResult :=
  let keywords := findKeywords g
  match lex program keywords with
  | .error le => .error (.lexe le.message)
  | .ok toks =>
    let ctx : Ctx := ⟨g, debug, toks, program⟩
    match parseRule fuel ctx ((lookupRule g ruleName).map Sum.inr) ruleName none 0 with
    | (.ok v, _) => .ok v
    | (.error (.perr e), _) => .error (.perr (decorate ctx e))
    | (.error e, _) => .error e

/-! ## Concrete grammars exercised by the claims

`Rule.mk` fields, in order: type, capture, parse, sequence, options,
repeat, optional, separator. -/

/-- The Hello grammar from the repository's test
(src/lib/_tests_/helloWorld.test.js):
`hello = {type:"hello", capture:true, sequence:["hello", {type:"noun"}]}`,
`noun = {type:"noun", capture:true, parse: (token) => token.value}`. -/
def helloG : Grammar :=
  [("hello", .mk (some "hello") true none
      (some [.inl "hello", .inr (.mk (some "noun") false none none none false false none)])
      none false false none),
   ("noun", .mk (some "noun") true (some fun t => .ok (.str t.value))
      none none false false none)]

/-- `{sequence: ["x", "y"]}` -/
def ruleXY : Rule := .mk none false none (some [.inl "x", .inl "y"]) none false false none

/-- `S = {options: ["z", {sequence: ["x", "y"]}]}`: two alternatives failing
at different depths. -/
def ruleSOpts : Rule := .mk none false none none (some [.inl "z", .inr ruleXY]) false false none

def gOpts : Grammar := [("S", ruleSOpts)]

/-- `AB = {sequence: ["a", "b"]}` -/
def ruleAB : Rule := .mk (some "AB") false none (some [.inl "a", .inl "b"]) none false false none

/-- `{type: "AB", repeat: true}` -/
def ruleRepAB : Rule := .mk (some "AB") false none none none true false none

/-- `S = {options: [{type:"AB", repeat:true}]}`: a single alternative that
is a repetition. -/
def ruleSRep : Rule := .mk none false none none (some [.inr ruleRepAB]) false false none

def gRep : Grammar := [("S", ruleSRep), ("AB", ruleAB)]

/-- Grammar whose sequence contains a terminal returning the number 0 (a
non-nil but falsy result) followed by a terminal returning the token text:
`S = {sequence: [{parse: () => 0}, {parse: (t) => t.value}]}`. -/
def gZero : Grammar :=
  [("S", .mk none false none
      (some [.inr (.mk none false (some fun _ => .ok (.num 0)) none none false false none),
             .inr (.mk none false (some fun t => .ok (.str t.value)) none none false false none)])
      none false false none)]

/-- Token list of `lex("x q", ["z","x","y"])` — `"x"` is a grammar keyword,
`"q"` an identifier; whitespace filtered. -/
def tokensXQ : List Token := [⟨"keyword", "x", 1, 1, 1⟩, ⟨"identifier", "q", 1, 3, 3⟩]

/-- Engine context for parsing `"x q"` against `gOpts`. -/
def ctxXQ : Ctx := ⟨gOpts, false, tokensXQ, "x q"⟩

/-- Token list of `lex("a c", ["a","b"])`. -/
def tokensAC : List Token := [⟨"keyword", "a", 1, 1, 1⟩, ⟨"identifier", "c", 1, 3, 3⟩]

/-- Engine context for parsing `"a c"` against `gRep`. -/
def ctxAC : Ctx := ⟨gRep, false, tokensAC, "a c"⟩

/-- The CST the Hello grammar produces for `hello world`
(`{type:"hello", value:{type:"noun", value:"world"}}`). -/
def helloWorldCST : ASTVal :=
  .node (some "hello") (some (.node (some "noun") (some (.str "world")) none none)) none none

/-- The CST the Hello grammar produces for either spelling of `hello x`. -/
def helloXCST : ASTVal :=
  .node (some "hello") (some (.node (some "noun") (some (.str "x")) none none)) none none

/-! ## Specification-side definitions

These are the reference functions the claims compare the engine against. -/

/-- Concatenation of the `value` fields of a token list (as characters). -/
def concatValues (ts : List Token) : List Char :=
  ts.foldr (fun t acc => t.value.data ++ acc) []

/-- The sequence loop seen as two phases: first run every child in order
(`runChildren`, collecting each raw result, nil or not), then filter and
pack.  `runChildren` mirrors `seqLoop`'s traversal — same `endToken` hint,
same state threading — but keeps every result. -/
def runChildren (pr : PR) (curTy : String) : List RuleOrKw → Nat →
    Except Thrown (List ASTResult) × Nat
  | [], pos => (.ok [], pos)
  | c :: rest, pos =>
    match pr (some c) curTy rest.head? pos with
    | (.error e, p) => (.error e, p)
    | (.ok parsed, p) =>
      match runChildren pr curTy rest p with
      | (.ok rs, q) => (.ok (parsed :: rs), q)
      | (.error e, q) => (.error e, q)

/-- The child results a sequence keeps: exactly the truthy ones (JS
`if (parsed)`), in order. -/
def keepTruthy (rs : List ASTResult) : List ASTVal :=
  rs.filterMap fun r => if truthy r then r else none

/-- Packing of a sequence's kept results: a single kept element is returned
unwrapped, anything else as a list. -/
def packSeq (acc : List ASTVal) (rs : List ASTResult) : ASTResult :=
  some (match acc ++ keepTruthy rs with | [x] => x | l => .list l)

/-- State of the character-level reference scanner: outside any literal,
inside a `//` comment, or inside a string literal opened at
(`openLine`, `openCol`). -/
inductive ScanMode where
  | norm
  | cmt
  | str (openLine openCol : Nat)

/-- Character-level reference scanner deciding whether the input contains an
unterminated string literal: it returns `some (finalLine, openLine, openCol)`
— the line reached at end of input and the position of the offending opening
quote — or `none` when every string literal is closed.  Independent of the
lexer: it walks one character at a time, tracking only line/column and
whether it is inside a comment or a string. -/
def specScan : List Char → ScanMode → Nat → Nat → Option (Nat × Nat × Nat)
  | [], mode, l, _ =>
    match mode with
    | .str oL oC => some (l, oL, oC)
    | _ => none
  | c :: rest, .norm, l, col =>
    if c = '"' then specScan rest (.str l col) l (col + 1)
    else if c = '/' && rest.head? = some '/' then specScan rest .cmt l (col + 1)
    else specScan rest .norm (if c = '\n' then l + 1 else l) (if c = '\n' then 1 else col + 1)
  | c :: rest, .cmt, l, col =>
    if c = '\n' then specScan rest .norm (l + 1) 1 else specScan rest .cmt l (col + 1)
  | c :: rest, .str oL oC, l, col =>
    if c = '"' then specScan rest .norm l (col + 1)
    else specScan rest (.str oL oC) (if c = '\n' then l + 1 else l) (if c = '\n' then 1 else col + 1)

/-- View of a scanner result keeping only the error message, if any. -/
def lexErrView : Except LexErr (List Token × Bool) → Option String
  | .error e => some e.message
  | .ok _ => none

/-! ## Claim theorems (concrete evaluations) -/

/-- C8: with the Hello grammar (`hello = {type:"hello", capture:true,
sequence:["hello", {type:"noun"}]}`, `noun = {type:"noun", capture:true,
parse: t => t.value}`), parsing `"hello world"` at entry `hello` with debug
off returns exactly `{type:"hello", value:{type:"noun", value:"world"}}`:
the keyword is discarded, the terminal's raw value is wrapped once by the
`noun` capture, and the singleton sequence result is unwrapped into the
`hello` capture. -/
theorem C8_hello_world_cst :
    parse 30 helloG false "hello world" "hello" = .ok (some helloWorldCST) := rfl

/-- C7: keyword matching is case-insensitive — for the Hello grammar, whose
literal is `"hello"`, `parse("HELLO x")` and `parse("hello x")` (debug off)
yield identical CSTs.  (`"HELLO"` even lexes as an identifier, not a
keyword, because keyword extraction is case-sensitive; the engine's
lower-cased comparison still matches it.) -/
theorem C7_keyword_case_insensitive :
    parse 30 helloG false "HELLO x" "hello" = parse 30 helloG false "hello x" "hello" ∧
    parse 30 helloG false "hello x" "hello" = .ok (some helloXCST) :=
  ⟨rfl, rfl⟩

/-- C2 (code bug): a `ParseError` without a token does NOT escape with only
its bare message.  The `catch` block of `parse` appends
`${location}\n\n${lineOfCode}\n` unconditionally, and with no token
`location` is empty while `lineOfCode` is `undefined`, which JavaScript
stringifies — the escaping message is the bare message plus
`"\n\nundefined\n"`.  Evaluated here on empty input, whose
"Unexpected end of input" error carries no token. -/
theorem C2_tokenless_error_message_not_bare :
    parse 30 helloG false "" "hello" =
      .error (.perr ⟨"Unexpected end of input\n\nundefined\n", none, none, false⟩) ∧
    "Unexpected end of input\n\nundefined\n" ≠ "Unexpected end of input" :=
  ⟨rfl, by decide⟩

set_option maxRecDepth 8000 in
/-- C1 (code bug): the tie counter of `parseOptionsRule` does not count only
alternatives failing at exactly the furthest token index.  The source
assigns `furthestError = e` *before* comparing
`e.token.index > furthestError.token.index`, so the comparison is `e`
against itself and the counter also increments when the new failure is
strictly deeper.  Here alternative `"z"` fails at token index 1 and
alternative `{sequence:["x","y"]}` fails strictly deeper at index 3, yet the
parse raises the generalized `Expected S but got q` error instead of
rethrowing the furthest error `Expected 'y' but got 'q'` verbatim as the
claim (and the inline comment) prescribe. -/
theorem C1_options_tie_counter_generalizes_single_furthest_failure :
    parse 30 gOpts false "x q" "S" =
      .error (.perr ⟨"Expected S but got q at line 1:3\n\n1 | x q\n      ^\n",
        some ⟨"identifier", "q", 1, 3, 3⟩, none, false⟩) ∧
    parse 30 gOpts false "x q" "S" ≠
      .error (.perr ⟨"Expected 'y' but got 'q' at line 1:3\n\n1 | x q\n      ^\n",
        some ⟨"identifier", "q", 1, 3, 3⟩, none, false⟩) := by
  refine ⟨rfl, fun h => ?_⟩
  have hm := congrArg
    (fun x => match x with
      | Except.error (.perr e) => e.message
      | _ => "") h
  exact absurd hm (by decide)

/-- C10: whenever `parseRepeatingRule` receives an `endToken` hint that is a
Rule object rather than a bare keyword string or absent (which is what a
sequence passes when a repeat child is immediately followed by a non-string
child), it raises `Expected a string for endToken` immediately — the cursor
is untouched and the repeated rule is never evaluated (the result does not
depend on the repeated rule, the engine callback or the fuel). -/
theorem C10_rule_endToken_rejected_immediately :
    ∀ (pr : PR) (ctx : Ctx) (r : Rule) (curTy : String) (er : Rule) (fuel pos : Nat),
      parseRepeatingRule pr ctx r curTy (some (.inr er)) fuel pos =
        (.error (.perr ⟨"Expected a string for endToken", none, none, false⟩), pos) :=
  fun _ _ _ _ _ _ _ => rfl

/-- C3 counterexample: an `options` attempt that fails entirely can leave
the cursor ahead of the pre-attempt position.  Against `gRep`
(`S = options [{type:"AB", repeat:true}]`, `AB = sequence ["a","b"]`) on
`"a c"`, the repetition's inner failure is rethrown with `exit` set and
`parseOptionsRule` propagates it without seeking back: the error leaves at
cursor 2, not the saved 0. -/
theorem C3_exit_error_leaves_cursor_advanced :
    lex "a c" (findKeywords gRep) = .ok tokensAC ∧
    parseOptionsRule (parseRule 30 ctxAC) ctxAC ruleSRep "S" none 0 =
      (.error (.perr ⟨"Expected 'b' but got 'c'", some ⟨"identifier", "c", 1, 3, 3⟩,
        none, true⟩), 2) ∧
    (2 : Nat) ≠ 0 :=
  ⟨rfl, rfl, by decide⟩

/-- C6 counterexample: the sequence loop does not collect every non-nil
child result — it collects the *truthy* ones.  In
`S = {sequence: [{parse: () => 0}, {parse: t => t.value}]}` on `"0 x"` both
children succeed with non-nil results `0` and `"x"`, so the claim predicts
the two-element list `[0, "x"]`; the engine drops the falsy `0` and returns
the unwrapped singleton `"x"`. -/
theorem C6_nonnil_collection_counterexample :
    parse 30 gZero false "0 x" "S" = .ok (some (.str "x")) ∧
    parse 30 gZero false "0 x" "S" ≠ .ok (some (.list [.num 0, .str "x"])) := by
  refine ⟨rfl, fun h => ?_⟩
  have hm := congrArg
    (fun x => match x with
      | Except.ok (some (ASTVal.str s)) => s
      | _ => "") h
  exact absurd hm (by decide)

/-- C5 counterexample: token values do not round-trip to the source, even
for accepted sources.  `"hello world!"` is accepted by the Hello grammar
(the unknown character `!` is silently skipped by the lexer), but the
produced `TokenStream` concatenates to `"helloworld"` — whitespace tokens
are filtered out before the stream is built — and even the raw pre-filter
token list only concatenates to `"hello world"`, missing the `!`. -/
theorem C5_roundtrip_counterexample :
    parse 30 helloG false "hello world!" "hello" = .ok (some helloWorldCST) ∧
    lex "hello world!" (findKeywords helloG) =
      .ok [⟨"keyword", "hello", 1, 1, 5⟩, ⟨"identifier", "world", 1, 7, 11⟩] ∧
    concatValues [⟨"keyword", "hello", 1, 1, 5⟩, ⟨"identifier", "world", 1, 7, 11⟩] ≠
      ("hello world!").data ∧
    lexRaw "hello world!" (findKeywords helloG) =
      .ok ([⟨"keyword", "hello", 1, 1, 5⟩, ⟨"whitespace", " ", 1, 6, 6⟩,
        ⟨"identifier", "world", 1, 7, 11⟩], true) ∧
    concatValues [⟨"keyword", "hello", 1, 1, 5⟩, ⟨"whitespace", " ", 1, 6, 6⟩,
        ⟨"identifier", "world", 1, 7, 11⟩] ≠ ("hello world!").data :=
  ⟨rfl, rfl, by decide, rfl, by decide⟩

/-- C9 counterexample: the unterminated-string error does not identify the
*line* of the opening quote.  For the input `"a` followed by a newline and
`b`, the opening quote sits at line 1, column 1 (as the reference scanner
records), but the raised message interpolates the line counter *after* the
string's contents were consumed: it reports line 2 with the opening column,
not `untermMsg 1 1`. -/
theorem C9_opening_line_counterexample :
    lex "\"a\nb" [] = .error ⟨"Unterminated string literal at line 2:1"⟩ ∧
    specScan ("\"a\nb").data .norm 1 1 = some (2, 1, 1) ∧
    "Unterminated string literal at line 2:1" ≠ untermMsg 1 1 :=
  ⟨rfl, rfl, by decide⟩

/-! ## Exit-flag discipline (C4) and cursor restoration (C3) -/

/-- If every `ParseError` escaping `loop` has `exit` set, so does every
`ParseError` escaping `repeatBody pr r curTy endTk loop` — the body's own
`catch` rethrows inner `ParseError`s with `exit := true` and hands anything
else back to the loop. -/
theorem repeatBody_exit (pr : PR) (r : Rule) (curTy : String) (endTk : Option RuleOrKw)
    (loop : List ASTVal → Nat → Except Thrown ASTResult × Nat)
    (hloop : ∀ acc pos e pos', loop acc pos = (.error (.perr e), pos') → e.exit = true)
    (acc : List ASTVal) (pos : Nat) (e : ParseError) (pos' : Nat)
    (h : repeatBody pr r curTy endTk loop acc pos = (.error (.perr e), pos')) :
    e.exit = true := by
  unfold repeatBody at h
  rcases hpr : pr (some (.inr (r.setRep false))) curTy endTk pos with ⟨res, p⟩
  rw [hpr] at h
  cases res with
  | ok parsed => exact hloop _ _ _ _ h
  | error err =>
    cases err with
    | perr e0 =>
      simp only [Prod.mk.injEq, Except.error.injEq, Thrown.perr.injEq] at h
      rw [← h.1]
    | js m => exact hloop _ _ _ _ h
    | lexe m => exact hloop _ _ _ _ h
    | undef => exact hloop _ _ _ _ h

/-- `seek` either throws its range error (leaving the cursor) or sets the
cursor to the target. -/
theorem seekTok_cases (ctx : Ctx) (target pos : Nat) :
    seekTok ctx target pos = ((.error (.js "Invalid seek position") : Except Thrown Unit), pos) ∨
    seekTok ctx target pos = (.ok (), target) := by
  unfold seekTok
  split
  · exact Or.inl rfl
  · exact Or.inr rfl

/-- Every `ParseError` escaping the repeat loop has its `exit` flag set: the
speculative `endToken` probe swallows all of its errors, end of input ends
the loop normally, and the body marks inner `ParseError`s before rethrowing
them. -/
theorem repeatLoop_exit (pr : PR) (ctx : Ctx) (r : Rule) (curTy : String)
    (endTk : Option RuleOrKw) :
    ∀ (fuel : Nat) (acc : List ASTVal) (pos : Nat) (e : ParseError) (pos' : Nat),
      repeatLoop pr ctx r curTy endTk fuel acc pos = (.error (.perr e), pos') →
      e.exit = true := by
  intro fuel
  induction fuel with
  | zero => intro acc pos e pos' h; simp [repeatLoop] at h
  | succ fuel ih =>
    intro acc pos e pos' h
    unfold repeatLoop at h
    split at h
    · simp at h
    · split at h
      · split at h
        · rename_i v p1 heq
          rcases seekTok_cases ctx pos p1 with hs | hs <;> rw [hs] at h <;> simp at h
        · rename_i err p1 heq
          rcases seekTok_cases ctx pos p1 with hs | hs <;> rw [hs] at h
          · simp at h
          · exact repeatBody_exit pr r curTy endTk _ ih _ _ _ _ h
      · exact repeatBody_exit pr r curTy endTk _ ih _ _ _ _ h

/-- C4: (1) every `ParseError` escaping the repetition loop carries
`exit = true`; (2) when the inner per-iteration evaluation of a repeat rule
raises a `ParseError`, the body rethrows exactly that error with its `exit`
flag set, immediately (same cursor, nothing else evaluated); and (3) when an
`options` alternative fails with an exit-flagged `ParseError`, the loop
rethrows it immediately at the alternative's cursor, without attempting any
further alternatives. -/
theorem C4_repeat_exit_flag_propagation :
    (∀ (pr : PR) (ctx : Ctx) (r : Rule) (curTy : String) (endTk : Option RuleOrKw)
        (fuel : Nat) (acc : List ASTVal) (pos : Nat) (e : ParseError) (pos' : Nat),
        repeatLoop pr ctx r curTy endTk fuel acc pos = (.error (.perr e), pos') →
        e.exit = true) ∧
    (∀ (pr : PR) (r : Rule) (curTy : String) (endTk : Option RuleOrKw)
        (loop : List ASTVal → Nat → Except Thrown ASTResult × Nat)
        (acc : List ASTVal) (pos : Nat) (e : ParseError) (pos' : Nat),
        pr (some (.inr (r.setRep false))) curTy endTk pos = (.error (.perr e), pos') →
        repeatBody pr r curTy endTk loop acc pos =
          (.error (.perr { e with exit := true }), pos')) ∧
    (∀ (pr : PR) (ctx : Ctx) (curTy : String) (endTk : Option RuleOrKw) (savedP : Nat)
        (o : RuleOrKw) (rest : List RuleOrKw) (furthest : Option ParseError)
        (count pos : Nat) (e : ParseError) (pos' : Nat),
        pr (some o) curTy endTk pos = (.error (.perr e), pos') → e.exit = true →
        optionsLoop pr ctx curTy endTk savedP (o :: rest) furthest count pos =
          (.error (.perr e), pos')) := by
  refine ⟨repeatLoop_exit, ?_, ?_⟩
  · intro pr r curTy endTk loop acc pos e pos' h
    unfold repeatBody
    rw [h]
  · intro pr ctx curTy endTk savedP o rest furthest count pos e pos' h hx
    unfold optionsLoop
    rw [h]
    simp [hx]

/-- C4 witness: the concrete run of `gRep` on `"a c"`.  The inner sequence
fails with the non-exit error `Expected 'b' but got 'c'` at cursor 2; the
repeat body rethrows it with `exit := true` (part 2), every `ParseError` out
of the whole repeat loop carries `exit = true` (part 1), and the `options`
loop rethrows the exit-flagged error immediately at cursor 2 (part 3). -/
theorem C4_repeat_exit_flag_propagation_witness :
    (parseRule 30 ctxAC (some (.inr (ruleRepAB.setRep false))) "S" none 0 =
      (.error (.perr ⟨"Expected 'b' but got 'c'",
        some ⟨"identifier", "c", 1, 3, 3⟩, none, false⟩), 2)) ∧
    repeatBody (parseRule 30 ctxAC) ruleRepAB "S" none
      (repeatLoop (parseRule 30 ctxAC) ctxAC ruleRepAB "S" none 29) [] 0 =
      (.error (.perr ⟨"Expected 'b' but got 'c'",
        some ⟨"identifier", "c", 1, 3, 3⟩, none, true⟩), 2) ∧
    (⟨"Expected 'b' but got 'c'", some ⟨"identifier", "c", 1, 3, 3⟩, none, true⟩ :
      ParseError).exit = true ∧
    optionsLoop (parseRule 30 ctxAC) ctxAC "S" none 0 [.inr ruleRepAB] none 0 0 =
      (.error (.perr ⟨"Expected 'b' but got 'c'",
        some ⟨"identifier", "c", 1, 3, 3⟩, none, true⟩), 2) :=
  ⟨rfl,
   C4_repeat_exit_flag_propagation.2.1 (parseRule 30 ctxAC) ruleRepAB "S" none
     (repeatLoop (parseRule 30 ctxAC) ctxAC ruleRepAB "S" none 29) [] 0
     ⟨"Expected 'b' but got 'c'", some ⟨"identifier", "c", 1, 3, 3⟩, none, false⟩ 2 rfl,
   C4_repeat_exit_flag_propagation.1 (parseRule 30 ctxAC) ctxAC ruleRepAB "S" none
     30 [] 0 ⟨"Expected 'b' but got 'c'", some ⟨"identifier", "c", 1, 3, 3⟩, none, true⟩ 2 rfl,
   C4_repeat_exit_flag_propagation.2.2 (parseRule 30 ctxAC) ctxAC "S" none 0
     (.inr ruleRepAB) [] none 0 0
     ⟨"Expected 'b' but got 'c'", some ⟨"identifier", "c", 1, 3, 3⟩, none, true⟩ 2 rfl rfl⟩

/-- When the `options` loop ends in a `ParseError` whose `exit` flag is
false, the cursor it leaves equals the saved pre-attempt position (or the
entry cursor, for an empty alternatives list): every non-exit failure seeks
back to `savedP` before continuing, and the end-of-list throws happen at the
cursor the last seek left. -/
theorem optionsLoop_restore (pr : PR) (ctx : Ctx) (curTy : String)
    (endTk : Option RuleOrKw) (savedP : Nat) :
    ∀ (opts : List RuleOrKw) (furthest : Option ParseError) (count pos : Nat)
      (e : ParseError) (pos' : Nat),
      optionsLoop pr ctx curTy endTk savedP opts furthest count pos =
        (.error (.perr e), pos') →
      e.exit = false → pos' = savedP ∨ pos' = pos := by
  intro opts
  induction opts with
  | nil =>
    intro furthest count pos e pos' h hx
    unfold optionsLoop at h
    right
    split at h <;> split at h <;> simp_all
  | cons o rest ih =>
    intro furthest count pos e pos' h hx
    unfold optionsLoop at h
    split at h
    · simp at h
    · rename_i e1 p heq
      by_cases hex : e1.exit = true
      · simp only [hex, if_true] at h
        simp only [Prod.mk.injEq, Except.error.injEq, Thrown.perr.injEq] at h
        rw [h.1.symm] at hx
        rw [hex] at hx
        cases hx
      · simp only [hex, if_false] at h
        rcases seekTok_cases ctx savedP p with hs | hs <;> rw [hs] at h
        · simp at h
        · rcases ih _ _ _ _ _ h hx with h' | h' <;> exact Or.inl h'
    · rename_i e2 p2 hne heq
      simp at h
      exact (hne e h.1).elim

/-- C3 (amended): if an evaluation of an `options` rule fails entirely and
the escaping `ParseError` has `exit = false`, the cursor at the moment the
error leaves `parseOptionsRule` equals the position saved before the first
alternative was attempted.  (For an exit-flagged error the cursor stays
where the failing alternative stopped — see the counterexample.) -/
theorem C3_options_failure_restores_cursor :
    ∀ (pr : PR) (ctx : Ctx) (r : Rule) (curTy : String) (endTk : Option RuleOrKw)
      (pos : Nat) (e : ParseError) (pos' : Nat),
      parseOptionsRule pr ctx r curTy endTk pos = (.error (.perr e), pos') →
      e.exit = false → pos' = pos := by
  intro pr ctx r curTy endTk pos e pos' h hx
  unfold parseOptionsRule at h
  cases hop : r.options with
  | none => rw [hop] at h; simp at h; exact h.2.symm
  | some opts =>
    rw [hop] at h
    rcases optionsLoop_restore pr ctx curTy endTk pos opts none 0 pos e pos' h hx with
      h' | h' <;> exact h'

/-- C3 witness: the `gOpts` run on `"x q"` — both alternatives fail without
`exit`, the loop restores the cursor after each, and the generalized error
leaves `parseOptionsRule` at the saved position 0. -/
theorem C3_options_failure_restores_cursor_witness :
    parseOptionsRule (parseRule 30 ctxXQ) ctxXQ ruleSOpts "S" none 0 =
      (.error (.perr ⟨"Expected S but got q",
        some ⟨"identifier", "q", 1, 3, 3⟩, none, false⟩), 0) ∧
    (0 : Nat) = 0 :=
  ⟨rfl,
   C3_options_failure_restores_cursor (parseRule 30 ctxXQ) ctxXQ ruleSOpts "S" none 0
     ⟨"Expected S but got q", some ⟨"identifier", "q", 1, 3, 3⟩, none, false⟩ 0 rfl rfl⟩

/-! ## Sequence collection refinement (C6) -/

/-- Reassociation of the sequence accumulator: pushing a result and then
packing is packing with the result prepended to the remaining raw results. -/
theorem packSeq_pushTruthy (acc : List ASTVal) (parsed : ASTResult) (rs : List ASTResult) :
    packSeq (pushTruthy acc parsed) rs = packSeq acc (parsed :: rs) := by
  cases parsed with
  | none => simp [packSeq, pushTruthy, keepTruthy, truthy]
  | some v =>
    by_cases hv : truthy (some v)
    · simp [packSeq, pushTruthy, keepTruthy, hv]
    · simp [packSeq, pushTruthy, keepTruthy, hv]

/-- The sequence loop equals: run all children (keeping every raw result),
then filter the truthy ones and pack. -/
theorem seqLoop_runChildren (pr : PR) (curTy : String) :
    ∀ (children : List RuleOrKw) (acc : List ASTVal) (pos : Nat),
      seqLoop pr curTy children acc pos =
        (match runChildren pr curTy children pos with
         | (.ok rs, p) => (.ok (packSeq acc rs), p)
         | (.error e, p) => (.error e, p)) := by
  intro children
  induction children with
  | nil =>
    intro acc pos
    rcases acc with _ | ⟨a, _ | ⟨b, t⟩⟩ <;> simp [seqLoop, runChildren, packSeq, keepTruthy]
  | cons c rest ih =>
    intro acc pos
    rcases hpr : pr (some c) curTy rest.head? pos with ⟨res, p⟩
    cases res with
    | error e => simp [seqLoop, runChildren, hpr]
    | ok parsed =>
      simp only [seqLoop, runChildren, hpr]
      rw [ih]
      rcases hrc : runChildren pr curTy rest p with ⟨res2, q⟩
      cases res2 <;> simp [hrc, packSeq_pushTruthy]

/-- C6 (amended): a sequence rule evaluates its children in order (passing
each child's successor as the `endToken` hint) and, when all succeed,
collects the *truthy* child results — non-nil, and for scalars nonzero /
nonempty (JS `if (parsed)`), so a non-nil `0` or `""` is dropped; if exactly
one result was collected it is returned unwrapped, otherwise the ordered
list is returned.  Stated as: `parseSequenceRule` equals running all
children raw (`runChildren`) followed by truthy filtering and
singleton-unwrap packing (`packSeq`). -/
theorem C6_sequence_truthy_collection :
    ∀ (pr : PR) (ctx : Ctx) (r : Rule) (curTy : String) (pos : Nat),
      parseSequenceRule pr ctx r curTy pos =
        (match r.sequence with
         | none =>
           (.error (.perr ⟨"Expected a sequence for rule", peekTok ctx pos, none, false⟩), pos)
         | some children =>
           match peekTok ctx pos with
           | none => (.error (.perr ⟨"Unexpected end of input", none, none, false⟩), pos)
           | some _ =>
             match runChildren pr curTy children pos with
             | (.ok rs, p) => (.ok (packSeq [] rs), p)
             | (.error e, p) => (.error e, p)) := by
  intro pr ctx r curTy pos
  unfold parseSequenceRule
  cases r.sequence with
  | none => rfl
  | some children =>
    cases peekTok ctx pos with
    | none => rfl
    | some t => exact seqLoop_runChildren pr curTy children [] pos

/-! ## Lexer round-trip (C5) -/

theorem concatValues_cons (t : Token) (ts : List Token) :
    concatValues (t :: ts) = t.value.data ++ concatValues ts := rfl

/-- Inversion of the token-cons `map` every scanner branch performs. -/
theorem map_cons_ok (x : Except LexErr (List Token × Bool)) (tok : Token) (toks : List Token)
    (h : x.map (fun r => (tok :: r.1, r.2)) = .ok (toks, false)) :
    ∃ ts, x = .ok (ts, false) ∧ toks = tok :: ts := by
  cases x with
  | error e => simp [Except.map] at h
  | ok r =>
    rcases r with ⟨ts, flag⟩
    simp [Except.map] at h
    exact ⟨ts, by rw [h.2], h.1.symm⟩

/-- The unknown-character branch forces the flag, so it cannot appear in a
flagless run. -/
theorem map_true_not_ok (x : Except LexErr (List Token × Bool)) (toks : List Token)
    (h : x.map (fun r => (r.1, true)) = .ok (toks, false)) : False := by
  cases x <;> simp [Except.map] at h

/-- The head of a `dropWhile` residue falsifies the predicate. -/
theorem dropWhile_cons_head (p : Char → Bool) :
    ∀ (l : List Char) (x : Char) (xs : List Char), l.dropWhile p = x :: xs → p x = false := by
  intro l
  induction l with
  | nil => intro x xs h; simp at h
  | cons a t ih =>
    intro x xs h
    rw [List.dropWhile_cons] at h
    split at h
    · exact ih _ _ h
    · rename_i hpa
      injection h with h1 h2
      subst h1
      simpa using hpa

/-- Concatenating the values of every token the scanner pushes reproduces
the consumed input exactly, provided the scan never took the
unknown-character branch (flag `false`). -/
theorem lexLoop_roundtrip :
    ∀ (fuel : Nat) (s : List Char) (idx line col : Nat) (kws : List String) (toks : List Token),
      lexLoop fuel s idx line col kws = .ok (toks, false) → concatValues toks = s := by
  intro fuel
  induction fuel with
  | zero => intro s idx line col kws toks h; simp [lexLoop] at h
  | succ fuel ih =>
    intro s idx line col kws toks h
    cases s with
    | nil =>
      unfold lexLoop at h
      simp at h
      simp_all [concatValues]
    | cons c cs =>
      unfold lexLoop at h
      split at h
      · -- whitespace
        obtain ⟨ts, hrec, htoks⟩ := map_cons_ok _ _ _ h
        subst htoks
        have hr := ih _ _ _ _ _ _ hrec
        rw [concatValues_cons]
        dsimp only
        rw [hr]
        exact List.takeWhile_append_dropWhile _ _
      · split at h
        · -- comment
          obtain ⟨ts, hrec, htoks⟩ := map_cons_ok _ _ _ h
          subst htoks
          have hr := ih _ _ _ _ _ _ hrec
          rw [concatValues_cons]
          dsimp only
          rw [hr]
          exact List.takeWhile_append_dropWhile _ _
        · split at h
          · -- number
            by_cases hsign : (c = '+' || c = '-') = true
            · simp only [hsign, if_true] at h
              obtain ⟨ts, hrec, htoks⟩ := map_cons_ok _ _ _ h
              subst htoks
              have hr := ih _ _ _ _ _ _ hrec
              rw [concatValues_cons]
              dsimp only
              rw [hr]
              simp [List.takeWhile_append_dropWhile]
            · simp only [hsign, if_false] at h
              obtain ⟨ts, hrec, htoks⟩ := map_cons_ok _ _ _ h
              subst htoks
              have hr := ih _ _ _ _ _ _ hrec
              rw [concatValues_cons]
              dsimp only
              rw [hr]
              exact List.takeWhile_append_dropWhile _ _
          · split at h
            · -- string
              rename_i hq
              rcases hdw : cs.dropWhile (· ≠ '"') with _ | ⟨d, rest⟩
              · rw [hdw] at h
                simp at h
              · rw [hdw] at h
                obtain ⟨ts, hrec, htoks⟩ := map_cons_ok _ _ _ h
                subst htoks
                have hr := ih _ _ _ _ _ _ hrec
                have hd : d = '"' := by
                  have := dropWhile_cons_head _ cs d rest hdw
                  simpa using this
                subst hd
                subst hq
                have hsplit := List.takeWhile_append_dropWhile (fun x => decide (x ≠ '"')) cs
                rw [hdw] at hsplit
                rw [concatValues_cons]
                dsimp only
                rw [hr]
                conv_rhs => rw [← hsplit]
                simp
            · split at h
              · -- operator
                obtain ⟨ts, hrec, htoks⟩ := map_cons_ok _ _ _ h
                subst htoks
                have hr := ih _ _ _ _ _ _ hrec
                rw [concatValues_cons]
                dsimp only
                rw [hr]
                rfl
              · split at h
                · -- bracket
                  obtain ⟨ts, hrec, htoks⟩ := map_cons_ok _ _ _ h
                  subst htoks
                  have hr := ih _ _ _ _ _ _ hrec
                  rw [concatValues_cons]
                  dsimp only
                  rw [hr]
                  rfl
                · split at h
                  · -- identifier / keyword
                    obtain ⟨ts, hrec, htoks⟩ := map_cons_ok _ _ _ h
                    subst htoks
                    have hr := ih _ _ _ _ _ _ hrec
                    rw [concatValues_cons]
                    dsimp only
                    rw [hr]
                    exact List.takeWhile_append_dropWhile _ _
                  · -- unknown character: flag forced
                    exact (map_true_not_ok _ _ h).elim

/-- C5 (amended): for every scan that never hits the unknown-character
branch, concatenating the `value` of every token pushed during scanning —
the raw list, before whitespace tokens are filtered out of the returned
`TokenStream` — reproduces the source exactly, whitespace and comments
included.  (As stated the claim fails: the `TokenStream` omits whitespace
tokens and unknown characters are dropped entirely — see the
counterexample.) -/
theorem C5_lexer_roundtrip_pre_filter :
    ∀ (input : String) (kws : List String) (toks : List Token),
      lexRaw input kws = .ok (toks, false) → concatValues toks = input.data :=
  fun _ kws toks h => lexLoop_roundtrip _ _ _ _ _ kws toks h

/-- C5 witness: the run on `"1 + 2"` (the round-trip input of the
repository's own lexer test). -/
theorem C5_lexer_roundtrip_pre_filter_witness :
    lexRaw "1 + 2" [] =
      .ok ([⟨"number", "1", 1, 1, 1⟩, ⟨"whitespace", " ", 1, 2, 2⟩,
        ⟨"operator", "+", 1, 3, 2⟩, ⟨"whitespace", " ", 1, 4, 4⟩,
        ⟨"number", "2", 1, 5, 5⟩], false) ∧
    concatValues [⟨"number", "1", 1, 1, 1⟩, ⟨"whitespace", " ", 1, 2, 2⟩,
        ⟨"operator", "+", 1, 3, 2⟩, ⟨"whitespace", " ", 1, 4, 4⟩,
        ⟨"number", "2", 1, 5, 5⟩] = ("1 + 2").data :=
  ⟨rfl, C5_lexer_roundtrip_pre_filter "1 + 2" [] _ rfl⟩

/-! ## Lexer error characterization (C9)

The character-level reference scanner `specScan` is related to the run-based
`lexLoop` branch by branch: outside comments and strings every consumed
character either resets (newline) or advances the column, so the two
position bookkeepings coincide. -/

theorem lexErrView_map (x : Except LexErr (List Token × Bool))
    (f : List Token × Bool → List Token × Bool) :
    lexErrView (x.map f) = lexErrView x := by
  cases x <;> rfl

theorem length_dropWhile_le (p : Char → Bool) :
    ∀ l : List Char, (l.dropWhile p).length ≤ l.length := by
  intro l
  induction l with
  | nil => simp
  | cons a t ih =>
    rw [List.dropWhile_cons]
    split
    · exact Nat.le_succ_of_le ih
    · exact Nat.le_refl _

theorem foldPos_no_newline :
    ∀ (w : List Char) (l col : Nat), (∀ x ∈ w, x ≠ '\n') →
      foldPos w (l, col) = (l, col + w.length) := by
  intro w
  induction w with
  | nil => intro l col _; rfl
  | cons a t ih =>
    intro l col hw
    have ha := hw a (List.mem_cons_self a t)
    rw [foldPos, if_neg ha, ih _ _ fun x hx => hw x (List.mem_cons_of_mem a hx)]
    simp
    omega

/-- Transport of the reference scanner (normal mode) across a run of
characters that can neither open a string nor start a comment. -/
theorem specScan_norm_append :
    ∀ (w rest : List Char) (l col : Nat), (∀ x ∈ w, x ≠ '"' ∧ x ≠ '/') →
      specScan (w ++ rest) .norm l col =
        specScan rest .norm (foldPos w (l, col)).1 (foldPos w (l, col)).2 := by
  intro w
  induction w with
  | nil => intro rest l col _; rfl
  | cons a t ih =>
    intro rest l col hw
    obtain ⟨ha1, ha2⟩ := hw a (List.mem_cons_self a t)
    have hw' : ∀ x ∈ t, x ≠ '"' ∧ x ≠ '/' := fun x hx => hw x (List.mem_cons_of_mem a hx)
    by_cases han : a = '\n'
    · simp [specScan, foldPos, ha1, ha2, han, ih _ _ _ hw']
    · simp [specScan, foldPos, ha1, ha2, han, ih _ _ _ hw']

/-- Transport of the reference scanner (string mode) across the contents of
a string literal. -/
theorem specScan_str_append :
    ∀ (w rest : List Char) (oL oC l col : Nat), (∀ x ∈ w, x ≠ '"') →
      specScan (w ++ rest) (.str oL oC) l col =
        specScan rest (.str oL oC) (foldPos w (l, col)).1 (foldPos w (l, col)).2 := by
  intro w
  induction w with
  | nil => intro rest oL oC l col _; rfl
  | cons a t ih =>
    intro rest oL oC l col hw
    have ha := hw a (List.mem_cons_self a t)
    have hw' : ∀ x ∈ t, x ≠ '"' := fun x hx => hw x (List.mem_cons_of_mem a hx)
    by_cases han : a = '\n'
    · simp [specScan, foldPos, ha, han, ih _ _ _ _ _ hw']
    · simp [specScan, foldPos, ha, han, ih _ _ _ _ _ hw']

/-- Transport of the reference scanner (comment mode) across the body of a
line comment. -/
theorem specScan_cmt_append :
    ∀ (w rest : List Char) (l col : Nat), (∀ x ∈ w, x ≠ '\n') →
      specScan (w ++ rest) .cmt l col = specScan rest .cmt l (col + w.length) := by
  intro w
  induction w with
  | nil => intro rest l col _; rfl
  | cons a t ih =>
    intro rest l col hw
    have ha := hw a (List.mem_cons_self a t)
    rw [List.cons_append, specScan, if_neg ha,
      ih _ _ _ fun x hx => hw x (List.mem_cons_of_mem a hx)]
    have : col + 1 + t.length = col + (a :: t).length := by simp; omega
    rw [this]

/-- At the end of a comment (end of input or a newline ahead) the comment
mode rejoins the normal mode — the column is irrelevant, a newline resets
it and end of input ignores it. -/
theorem specScan_cmt_to_norm :
    ∀ (rest : List Char) (l col col' : Nat),
      (rest.head? = none ∨ rest.head? = some '\n') →
      specScan rest .cmt l col = specScan rest .norm l col' := by
  intro rest l col col' h
  cases rest with
  | nil => rfl
  | cons d t =>
    rcases h with h | h
    · simp at h
    · simp at h
      subst h
      simp [specScan]

/-- Characters of the lexer's run classes can neither open a string nor
start a comment nor be a newline. -/
theorem ws_not_special : ∀ x : Char, isWsChar x = true → x ≠ '"' ∧ x ≠ '/' := by
  intro x hx
  constructor <;> rintro rfl <;> revert hx <;> decide

theorem digitDot_not_special :
    ∀ x : Char, isDigitDotChar x = true → (x ≠ '"' ∧ x ≠ '/') ∧ x ≠ '\n' := by
  intro x hx
  refine ⟨⟨?_, ?_⟩, ?_⟩ <;> rintro rfl <;> revert hx <;> decide

theorem alnum_not_special :
    ∀ x : Char, isAlnumChar x = true → (x ≠ '"' ∧ x ≠ '/') ∧ x ≠ '\n' := by
  intro x hx
  refine ⟨⟨?_, ?_⟩, ?_⟩ <;> rintro rfl <;> revert hx <;> decide

/-- A string opened at (`oL`, `oC`) whose remaining input contains no
closing quote is reported unterminated at the line the scan ends on. -/
theorem specScan_str_unterminated (w : List Char) (oL oC l col : Nat)
    (hw : ∀ x ∈ w, x ≠ '"') :
    specScan w (.str oL oC) l col = some ((foldPos w (l, col)).1, oL, oC) := by
  have h := specScan_str_append w [] oL oC l col hw
  rw [List.append_nil] at h
  rw [h]
  rfl

/-- The run-based scanner raises the unterminated-string `LexerError` (with
the final line and the opening column) exactly when the character-level
reference scanner finds an unterminated string, and succeeds otherwise —
stated as an equality of error views, for any sufficient fuel. -/
theorem lexLoop_view :
    ∀ (fuel : Nat) (s : List Char) (idx line col : Nat) (kws : List String),
      s.length < fuel →
      lexErrView (lexLoop fuel s idx line col kws) =
        (specScan s .norm line col).map (fun flc => untermMsg flc.1 flc.2.2) := by
  intro fuel
  induction fuel with
  | zero => intro s idx line col kws hlen; exact absurd hlen (Nat.not_lt_zero _)
  | succ fuel ih =>
    intro s idx line col kws hlen
    cases s with
    | nil => rfl
    | cons c cs =>
      have hcs : cs.length < fuel := Nat.lt_of_succ_lt_succ hlen
      unfold lexLoop
      split
      · -- whitespace run
        rename_i h1
        dsimp only
        rw [lexErrView_map]
        have hlen' : ((c :: cs).dropWhile isWsChar).length < fuel := by
          rw [List.dropWhile_cons_of_pos h1]
          exact Nat.lt_of_le_of_lt (length_dropWhile_le isWsChar cs) hcs
        rw [ih _ _ _ _ kws hlen']
        conv_rhs => rw [← List.takeWhile_append_dropWhile isWsChar (c :: cs)]
        rw [specScan_norm_append _ _ _ _
          fun x hx => ws_not_special x (List.mem_takeWhile_imp hx)]
      · rename_i h1
        split
        · -- comment run
          rename_i h2
          dsimp only
          rw [lexErrView_map]
          simp only [Bool.and_eq_true, decide_eq_true_eq] at h2
          obtain ⟨hc1, hc2⟩ := h2
          subst hc1
          cases cs with
          | nil => simp at hc2
          | cons c2 cs' =>
            simp at hc2
            subst hc2
            have hlen' : (('/' :: '/' :: cs').dropWhile (· ≠ '\n')).length < fuel := by
              rw [List.dropWhile_cons_of_pos (by decide), List.dropWhile_cons_of_pos (by decide)]
              have := length_dropWhile_le (· ≠ '\n') cs'
              simp at hlen
              omega
            rw [ih _ _ _ _ kws hlen']
            rw [List.dropWhile_cons_of_pos (by decide), List.dropWhile_cons_of_pos (by decide)]
            have hrhs : specScan ('/' :: '/' :: cs') .norm line col =
                specScan cs' .cmt line (col + 2) := by
              simp [specScan]
            rw [hrhs]
            conv_rhs => rw [← List.takeWhile_append_dropWhile (fun x => decide (x ≠ '\n')) cs']
            rw [specScan_cmt_append _ _ _ _
              fun x hx => by simpa using List.mem_takeWhile_imp hx]
            have hhead : (cs'.dropWhile (· ≠ '\n')).head? = none ∨
                (cs'.dropWhile (· ≠ '\n')).head? = some '\n' := by
              cases hdw : cs'.dropWhile (· ≠ '\n') with
              | nil => exact Or.inl rfl
              | cons d t =>
                have := dropWhile_cons_head _ cs' d t hdw
                simp at this
                simp [this]
            rw [specScan_cmt_to_norm (cs'.dropWhile (· ≠ '\n')) line
              (col + 2 + (cs'.takeWhile (· ≠ '\n')).length)
              (col + (('/' :: '/' :: cs').takeWhile (· ≠ '\n')).length) hhead]
        · rename_i h2
          split
          · -- number run
            rename_i h3
            by_cases hsign : (c = '+' || c = '-') = true
            · dsimp only
              rw [if_pos hsign, if_pos hsign]
              rw [lexErrView_map]
              have hlen' : (cs.dropWhile isDigitDotChar).length < fuel :=
                Nat.lt_of_le_of_lt (length_dropWhile_le isDigitDotChar cs) hcs
              rw [ih _ _ _ _ kws hlen']
              have hc : c = '+' ∨ c = '-' := by simpa using hsign
              have hchars : ∀ x ∈ c :: cs.takeWhile isDigitDotChar, x ≠ '"' ∧ x ≠ '/' := by
                intro x hx
                rcases List.mem_cons.mp hx with rfl | hx'
                · rcases hc with rfl | rfl <;> exact ⟨by decide, by decide⟩
                · exact (digitDot_not_special x (List.mem_takeWhile_imp hx')).1
              have hnl : ∀ x ∈ c :: cs.takeWhile isDigitDotChar, x ≠ '\n' := by
                intro x hx
                rcases List.mem_cons.mp hx with rfl | hx'
                · rcases hc with rfl | rfl <;> decide
                · exact (digitDot_not_special x (List.mem_takeWhile_imp hx')).2
              have hde : c :: cs =
                  (c :: cs.takeWhile isDigitDotChar) ++ cs.dropWhile isDigitDotChar := by
                rw [List.cons_append, List.takeWhile_append_dropWhile]
              conv_rhs => rw [hde]
              rw [specScan_norm_append _ _ _ _ hchars, foldPos_no_newline _ _ _ hnl]
            · dsimp only
              rw [if_neg hsign, if_neg hsign]
              rw [lexErrView_map]
              have hd : isDigitChar c = true := by
                cases hdc : isDigitChar c
                · rw [hdc] at h3
                  simp only [Bool.false_or, Bool.and_eq_true] at h3
                  exact absurd h3.1 hsign
                · rfl
              have hdd : isDigitDotChar c = true := by simp [isDigitDotChar, hd]
              have hlen' : ((c :: cs).dropWhile isDigitDotChar).length < fuel := by
                rw [List.dropWhile_cons_of_pos hdd]
                exact Nat.lt_of_le_of_lt (length_dropWhile_le isDigitDotChar cs) hcs
              rw [ih _ _ _ _ kws hlen']
              conv_rhs => rw [← List.takeWhile_append_dropWhile isDigitDotChar (c :: cs)]
              rw [specScan_norm_append _ _ _ _
                  fun x hx => (digitDot_not_special x (List.mem_takeWhile_imp hx)).1,
                foldPos_no_newline _ _ _
                  fun x hx => (digitDot_not_special x (List.mem_takeWhile_imp hx)).2]
          · rename_i h3
            split
            · -- string literal
              rename_i h4
              subst h4
              dsimp only
              rcases hdw : cs.dropWhile (· ≠ '"') with _ | ⟨d, rest⟩
              · have hcs2 : cs = cs.takeWhile (· ≠ '"') := by
                  conv_lhs => rw [← List.takeWhile_append_dropWhile (fun x => decide (x ≠ '"')) cs]
                  rw [hdw, List.append_nil]
                have hrhs : specScan ('"' :: cs) .norm line col =
                    specScan cs (.str line col) line (col + 1) := by simp [specScan]
                rw [hrhs]
                conv_rhs => rw [hcs2]
                rw [specScan_str_unterminated _ _ _ _ _
                  fun x hx => by simpa using List.mem_takeWhile_imp hx]
                rfl
              · dsimp only
                rw [lexErrView_map]
                have hd : d = '"' := by simpa using dropWhile_cons_head _ cs d rest hdw
                subst hd
                have hsplit := List.takeWhile_append_dropWhile (fun x => decide (x ≠ '"')) cs
                rw [hdw] at hsplit
                have hlen' : rest.length < fuel := by
                  have hle := length_dropWhile_le (fun x => decide (x ≠ '"')) cs
                  rw [hdw] at hle
                  simp at hle
                  omega
                rw [ih _ _ _ _ kws hlen']
                have hrhs : specScan ('"' :: cs) .norm line col =
                    specScan cs (.str line col) line (col + 1) := by simp [specScan]
                rw [hrhs]
                conv_rhs => rw [← hsplit]
                rw [specScan_str_append _ _ _ _ _ _
                  fun x hx => by simpa using List.mem_takeWhile_imp hx]
                have hstep : ∀ L C, specScan ('"' :: rest) (ScanMode.str line col) L C =
                    specScan rest .norm L (C + 1) := by
                  intro L C
                  simp [specScan]
                rw [hstep]
            · rename_i h4
              split
              · -- operator
                rename_i h5
                rw [lexErrView_map]
                rw [ih _ _ _ _ kws hcs]
                have hnl : ¬(c = '\n') := fun hc => h1 (by subst hc; decide)
                have hrhs : specScan (c :: cs) .norm line col = specScan cs .norm line (col + 1) := by
                  simp only [specScan]
                  rw [if_neg h4, if_neg h2, if_neg hnl, if_neg hnl]
                rw [hrhs]
              · rename_i h5
                split
                · -- bracket
                  rename_i h6
                  rw [lexErrView_map]
                  rw [ih _ _ _ _ kws hcs]
                  have hnl : ¬(c = '\n') := fun hc => h1 (by subst hc; decide)
                  have hrhs : specScan (c :: cs) .norm line col = specScan cs .norm line (col + 1) := by
                    simp only [specScan]
                    rw [if_neg h4, if_neg h2, if_neg hnl, if_neg hnl]
                  rw [hrhs]
                · rename_i h6
                  split
                  · -- identifier / keyword run
                    rename_i h7
                    dsimp only
                    rw [lexErrView_map]
                    have han : isAlnumChar c = true := by simp [isAlnumChar, h7]
                    have hlen' : ((c :: cs).dropWhile isAlnumChar).length < fuel := by
                      rw [List.dropWhile_cons_of_pos han]
                      exact Nat.lt_of_le_of_lt (length_dropWhile_le isAlnumChar cs) hcs
                    rw [ih _ _ _ _ kws hlen']
                    conv_rhs => rw [← List.takeWhile_append_dropWhile isAlnumChar (c :: cs)]
                    rw [specScan_norm_append _ _ _ _
                        fun x hx => (alnum_not_special x (List.mem_takeWhile_imp hx)).1,
                      foldPos_no_newline _ _ _
                        fun x hx => (alnum_not_special x (List.mem_takeWhile_imp hx)).2]
                  · -- unknown character (skipped)
                    rename_i h7
                    rw [lexErrView_map]
                    rw [ih _ _ _ _ kws hcs]
                    have hnl : ¬(c = '\n') := fun hc => h1 (by subst hc; decide)
                    have hrhs : specScan (c :: cs) .norm line col = specScan cs .norm line (col + 1) := by
                      simp only [specScan]
                      rw [if_neg h4, if_neg h2, if_neg hnl, if_neg hnl]
                    rw [hrhs]
/-- C9 (amended): `lex` raises its `LexerError` if and only if the input
contains a string literal whose opening double quote is never matched before
end of input — as decided by the independent character-level scanner
`specScan` — and the raised message is `Unterminated string literal at line
L:C` where `C` is the opening quote's *column* but `L` is the line reached
at end of input (the opening line only when the literal spans no newline;
see the counterexample).  For every input without an unterminated string,
`lex` returns a token stream without raising. -/
theorem C9_lexer_unterminated_iff :
    ∀ (input : String) (kws : List String),
      match specScan input.data .norm 1 1 with
      | some flc => lex input kws = .error ⟨untermMsg flc.1 flc.2.2⟩
      | none => ∃ toks, lex input kws = .ok toks := by
  intro input kws
  have h := lexLoop_view (input.length + 1) input.data 0 1 1 kws (Nat.lt_succ_self _)
  cases hscan : specScan input.data .norm 1 1 with
  | some flc =>
    rw [hscan] at h
    cases hrun : lexLoop (input.length + 1) input.data 0 1 1 kws with
    | error e =>
      rw [hrun] at h
      simp [lexErrView] at h
      unfold lex lexRaw
      rw [hrun]
      cases e
      simp [Except.map]
      exact h
    | ok r =>
      rw [hrun] at h
      simp [lexErrView] at h
  | none =>
    rw [hscan] at h
    cases hrun : lexLoop (input.length + 1) input.data 0 1 1 kws with
    | error e =>
      rw [hrun] at h
      simp [lexErrView] at h
    | ok r =>
      exact ⟨_, by unfold lex lexRaw; rw [hrun]; rfl⟩

end Parsnip
